import Mathlib

/-!
# goenvtemplator: a verification development

Shallow embedding of `template.go` and `goenvtemplator.go`.

Conventions of the embedding.

* A Go `string` is modelled as the list of its Unicode code points (`Str`), that
  is, as valid UTF-8 text. The byte `0x0A` occurs in valid UTF-8 only as the
  encoding of the code point U+000A, so splitting at the byte and splitting at
  the code point agree.
* A Go `error` result is modelled as `Option Str`: `none` is `nil`, `some m` is
  an error whose `Error()` text is `m`.
* Library functions of Go (`unicode.IsSpace`, `strings.Split`, `strings.Join`,
  `strings.TrimSpace`, `bufio.Reader.ReadString`, `fmt.Errorf`) are modelled
  from their documented behaviour; operating-system services and the template
  engine are parameters.
-/

set_option autoImplicit false

namespace Goenvtemplator

/-- A Go string, as the list of its code points. -/
abbrev Str := List Char

/-! ## Library models used by the blank-line normalizer -/

/-- Go `unicode.IsSpace`: the Latin-1 spaces `\t \n \v \f \r`, space, U+0085,
U+00A0, and above Latin-1 the code points with the `White_Space` property. -/
def isSpace (r : Char) : Bool :=
  let n := r.toNat
  (9 ≤ n && n ≤ 13) || n == 32 || n == 133 || n == 160 || n == 5760 ||
    (8192 ≤ n && n ≤ 8202) || n == 8232 || n == 8233 || n == 8239 ||
    n == 8287 || n == 12288

/-- Go `isBlank` (template.go): `false` at the first rune that is not a space,
`true` when the runes are exhausted. -/
def isBlank : Str → Bool
  | [] => true
  | r :: rs => if !isSpace r then false else isBlank rs

/-- Go `bufio.Reader.ReadString(delim)` on in-memory data: reads up to and
including the first `delim`. The result is `(line, rest, err)`; `err = true`
stands for `io.EOF`, returned together with the data read so far when the input
ends before a delimiter is found. -/
def readString (delim : Char) : Str → Str × Str × Bool
  | [] => ([], [], true)
  | c :: cs =>
    if c = delim then ([c], cs, false)
    else
      let r := readString delim cs
      (c :: r.1, r.2.1, r.2.2)

/-- The `for` loop of `removeBlankLines` (template.go). `fuel` bounds the
number of iterations, `prevLineBlank` is the loop variable of that name, `inp`
is the unread input and `out` what has been written so far. `none` means the
fuel ran out before the loop ended. Writes go to an in-memory buffer and cannot
fail. -/
def removeBlankLinesLoop : Nat → Bool → Str → Str → Option Str
  | 0, _, _, _ => none
  | fuel + 1, prevLineBlank, inp, out =>
    let r := readString '\n' inp
    let line := r.1
    if r.2.2 then some out          -- err != nil: break
    else if isBlank line then
      if prevLineBlank then removeBlankLinesLoop fuel prevLineBlank r.2.1 out  -- continue
      else removeBlankLinesLoop fuel true r.2.1 (out ++ line)
    else removeBlankLinesLoop fuel false r.2.1 (out ++ line)

/-- Go `removeBlankLines` (template.go): the loop started with
`prevLineBlank := true` on the whole input and an empty output. One iteration
per line read plus the one that meets the end of input is enough, so the fuel
`length + 1` never runs out (`removeBlankLines_eq`). -/
def removeBlankLines (input : Str) : Option Str :=
  removeBlankLinesLoop (input.length + 1) true input []

/-! ## Vocabulary for stating properties of texts -/

/-- A newline-terminated line: it ends with a newline and has no other. -/
def IsLine (l : Str) : Prop := l.getLast? = some '\n' ∧ '\n' ∉ l.dropLast

instance : DecidablePred IsLine := fun l => by unfold IsLine; infer_instance

/-- The lines of a text: the text cut after every newline. All lines but
possibly the last are newline-terminated; a non-empty remainder after the last
newline is the last line. -/
def textLines : Str → List Str
  | [] => []
  | c :: cs =>
    if c = '\n' then [c] :: textLines cs
    else
      match textLines cs with
      | [] => [[c]]
      | l :: ls => (c :: l) :: ls

/-- No two neighbouring lines are both blank: `ls.zip ls.tail` lists the pairs
of neighbours. -/
def NoBlankPair (ls : List Str) : Prop :=
  ∀ p ∈ ls.zip ls.tail, ¬ (isBlank p.1 = true ∧ isBlank p.2 = true)

instance (ls : List Str) : Decidable (NoBlankPair ls) :=
  inferInstanceAs (Decidable (∀ p ∈ ls.zip ls.tail, ¬ (isBlank p.1 = true ∧ isBlank p.2 = true)))

/-- The first line, if there is one, is not blank. -/
def FirstNotBlank (ls : List Str) : Prop :=
  ∀ l, ls.head? = some l → isBlank l = false

/-- Line-level description of the loop body: from a list of lines, drop every
blank line whose predecessor is blank; `prev` tells whether the line before the
list counts as blank. -/
def squeezeLines : Bool → List Str → List Str
  | _, [] => []
  | prev, l :: ls =>
    if isBlank l then
      if prev then squeezeLines true ls else l :: squeezeLines true ls
    else l :: squeezeLines false ls

/-- Normal form relative to the line before: no blank pair inside, and no
blank first line when the line before counts as blank. -/
def NormalFrom (prev : Bool) (ls : List Str) : Prop :=
  (prev = true → FirstNotBlank ls) ∧ NoBlankPair ls

/-- The blank state of the loop after the lines `a`, started in state `prev`. -/
def stateAfter (prev : Bool) (a : List Str) : Bool :=
  match a.getLast? with
  | none => prev
  | some l => isBlank l

/-! ## Library models: package `strings` -/

/-- Go `strings.Split(s, sep)` for a separator of one character, the only use
in this program (":" and "="): the pieces of `s` between the separators, in
order; a text with `n` separators gives `n + 1` pieces, the empty text one
empty piece. -/
def stringsSplit (s : Str) (sep : Char) : List Str :=
  match s with
  | [] => [[]]
  | c :: cs =>
    if c = sep then [] :: stringsSplit cs sep
    else
      match stringsSplit cs sep with
      | [] => [[c]]
      | p :: ps => (c :: p) :: ps

/-- Go `strings.Join(elems, sep)`. -/
def stringsJoin (elems : List Str) (sep : Str) : Str :=
  match elems with
  | [] => []
  | [a] => a
  | a :: b :: rest => a ++ sep ++ stringsJoin (b :: rest) sep

/-- Go `strings.TrimSpace`: the text without its leading and trailing
white space (`unicode.IsSpace`). -/
def TrimSpace (s : Str) : Str :=
  ((s.dropWhile isSpace).reverse.dropWhile isSpace).reverse

/-! ## Template path pairs (goenvtemplator.go) -/

/-- Go `templatePaths`. -/
structure templatePaths where
  source : Str
  destination : Str
  deriving DecidableEq, Repr

/-- Go `templatesPaths`. -/
abbrev templatesPaths := List templatePaths

/-- Go `(*templatesPaths).Set`: the receiver list is passed in and the updated
list is returned together with the error. -/
def templatesPaths.Set (ts : templatesPaths) (value : Str) : templatesPaths × Option Str :=
  let parts := stringsSplit value ':'
  match parts with
  | [p0, p1] =>
    let t : templatePaths := ⟨TrimSpace p0, TrimSpace p1⟩
    (ts ++ [t], none)
  | _ => (ts, some "Option has invalid format!".toList)

/-! ## Environment snapshot (template.go) -/

/-- Go `map[string]string`, by its lookups. -/
abbrev EnvMap := Str → Option Str

/-- The empty map, `make(map[string]string)`. -/
def EnvMap.empty : EnvMap := fun _ => none

/-- The assignment `m[k] = v`. -/
def EnvMap.set (m : EnvMap) (k v : Str) : EnvMap :=
  fun q => if q = k then some v else m q

/-- Go `EnvAll`; `environ` is the result of `os.Environ()`. `split[0]` always
exists because `strings.Split` returns at least one piece. -/
def EnvAll (environ : List Str) : EnvMap × Option Str :=
  let res := environ.foldl
    (fun (res : EnvMap) (item : Str) =>
      let split := stringsSplit item '='
      res.set (split.headD []) (stringsJoin split.tail ['=']))
    EnvMap.empty
  (res, none)

/-- The value of `ctx.Env` built in `generateTemplate` (template.go, the loop
after `ctx.Env = make(map[string]string)`); `environ` is `os.Environ()`. -/
def ctxEnv (environ : List Str) : EnvMap :=
  environ.foldl
    (fun (env : EnvMap) (item : Str) =>
      let split := stringsSplit item '='
      env.set (split.headD []) (stringsJoin split.tail ['=']))
    EnvMap.empty

/-! ## Library model: `fmt.Errorf` without operands -/

/-- The width and precision scanner `parsenum` of package `fmt`: reads decimal
digits; the result is whether a number was read and the unread text. When the
number read so far exceeds 1000000 the scanner gives up and skips to the end of
the text. -/
def parsenum (num : Nat) (isnum : Bool) : Str → Bool × Str
  | [] => (isnum, [])
  | c :: cs =>
    if c.isDigit then
      if num > 1000000 then (false, [])
      else parsenum (num * 10 + (c.toNat - 48)) true cs
    else (isnum, c :: cs)

/-- The `parseArgNumber` of package `fmt` on a text that starts with `[`: the
number of characters to skip and whether a well-formed index `[n]` was read.
The text must have at least three bytes; the closing bracket is searched from
the second character on. -/
def parseArgNumber (format : Str) : Nat × Bool :=
  if (format.map Char.utf8Size).sum < 3 then (1, false)
  else
    let inner := format.tail
    if inner.contains ']' then
      let digits := inner.takeWhile (fun c => c != ']')
      let r := parsenum 0 false digits
      (digits.length + 2, r.1 && r.2.isEmpty)
    else (1, false)

/-- The `argNumber` of package `fmt` when the call has no operands: the unread
text, whether an index was found, and whether `goodArgNum` was cleared. With no
operands every explicit index is out of range. -/
def argNumber (format : Str) : Str × Bool × Bool :=
  match format with
  | '[' :: _ =>
    let r := parseArgNumber format
    (format.drop r.1, r.2, true)
  | _ => (format, false, false)

/-- One formatting directive of `doPrintf` (package `fmt`) when the call has no
operands; `s0` is the text after the percent sign. The result is the text
written and the number of characters of `s0` consumed. -/
def directive (s0 : Str) : Str × Nat :=
  -- flags
  let s1 := s0.dropWhile (fun c => c == '#' || c == '0' || c == '+' || c == '-' || c == ' ')
  -- explicit argument index
  let a1 := argNumber s1
  -- width
  let w : Str × Str × Bool × Bool :=
    match a1.1 with
    | '*' :: r => ("%!(BADWIDTH)".toList, r, false, a1.2.2)
    | s2 =>
      let n := parsenum 0 false s2
      ([], n.2, a1.2.1, a1.2.2 || (a1.2.1 && n.1))
  -- precision: read only when a character follows the period (`i+1 < end`);
  -- a period that ends the format is taken as the verb
  let p : Str × Str × Bool × Bool :=
    match w.2.1 with
    | '.' :: c :: cs =>
      let r := c :: cs
      let bad := w.2.2.2 || w.2.2.1
      let a2 := argNumber r
      match a2.1 with
      | '*' :: r2 => ("%!(BADPREC)".toList, r2, false, bad || a2.2.2)
      | r1 => ([], (parsenum 0 false r1).2, a2.2.1, bad || a2.2.2)
    | s3 => ([], s3, w.2.2.1, w.2.2.2)
  let a3 := if !p.2.2.1 then argNumber p.2.1 else (p.2.1, p.2.2.1, false)
  let bad := p.2.2.2 || a3.2.2
  match a3.1 with
  | [] => (w.1 ++ p.1 ++ "%!(NOVERB)".toList, s0.length)
  | verb :: r =>
    let text : Str :=
      if verb = '%' then ['%']
      else if bad then "%!".toList ++ [verb] ++ "(BADINDEX)".toList
      else "%!".toList ++ [verb] ++ "(MISSING)".toList
    (w.1 ++ p.1 ++ text, s0.length - r.length)

/-- The `doPrintf` of package `fmt` when the call has no operands: plain text
is copied, every directive is replaced by what `directive` writes. `skip` is
the number of characters still belonging to the directive being read. -/
def doPrintf : Nat → Str → Str
  | _, [] => []
  | skip + 1, _ :: cs => doPrintf skip cs
  | 0, c :: cs =>
    if c = '%' then
      let d := directive cs
      d.1 ++ doPrintf d.2 cs
    else c :: doPrintf 0 cs

/-- The message of the error made by `fmt.Errorf(format)` with no operands. -/
def Errorf (format : Str) : Str := doPrintf 0 format

/-! ## Template functions (template.go) -/

/-- A value handed to a template function as `interface{}`. -/
inductive Value where
  | nil
  | bool (b : Bool)
  | num (n : Int)
  | str (s : Str)
  | seq (xs : List Value)
  | dict (kvs : List (Str × Value))

/-- Go `Required`: the returned value and the error. The error is made by
`fmt.Errorf(warn)`, with `warn` in the place of the format. -/
def Required (warn : Str) (val : Value) : Value × Option Str :=
  match val with
  | .nil => (val, some (Errorf warn))
  | .str s => if s = [] then (val, some (Errorf warn)) else (val, none)
  | _ => (val, none)

/-! ## The batch generator and `main` (template.go, goenvtemplator.go)

The operating system, the template engine and the other external packages are
parameters (`Sys`), over an abstract state of the outside world `W`. Every
operation that the program calls may change the world, so that each call can
leave a mark in it; the program reaches the world through these operations
only. -/

/-- The external collaborators of the program. Results of type `Except Str _`
and `Option Str` carry the error text of the Go `error`. -/
structure Sys (W : Type) where
  /-- Go `os.Environ()`. -/
  environ : W → List Str
  /-- Go `os.ReadFile(path)`. -/
  readFile : W → Str → W × Except Str Str
  /-- Go `os.WriteFile(path, data, 0664)`. -/
  writeFile : W → Str → Str → W × Option Str
  /-- Go `filepath.Base(path)`. -/
  base : Str → Str
  /-- Go `template.New(name).Delims(left, right).Funcs(..).Parse(source)`
  followed by `Execute` on the context holding `Env`; the arguments are the
  world, `name`, `left`, `right`, `source` and `Env`. -/
  render : W → Str → Str → Str → Str → EnvMap → W × Except Str Str
  /-- Go `godotenv.Load(files...)`. -/
  load : W → List Str → W × Option Str
  /-- Go `exec.LookPath(cmd)`. -/
  lookPath : W → Str → W × Except Str Str
  /-- Go `syscall.Exec(path, args, env)`: `none` when the process image was
  replaced, `some e` when the call returned with an error. -/
  exec : W → Str → List Str → List Str → Option Str

/-- The state threaded through the program: the outside world and the lines
written through package `log`. -/
structure St (W : Type) where
  world : W
  log : List Str
  deriving DecidableEq, Repr

/-- The apostrophe. -/
def apos : Char := Char.ofNat 39

/-- Go `generateTemplate`: the environment snapshot is built from
`os.Environ()` and handed to the template engine with the delimiters. -/
def generateTemplate {W : Type} (sys : Sys W) (w : W)
    (source name delimLeft delimRight : Str) : W × Except Str Str :=
  sys.render w name delimLeft delimRight source (ctxEnv (sys.environ w))

/-- The line logged by `generateFile` when `debugTemplates` is set. -/
def debugLine (result : Str) : Str :=
  "Printing parsed template to stdout. (It".toList ++ [apos] ++
    "s delimited by 2 character sequence of ".toList ++ [apos] ++
    "\\x00\\n".toList ++ [apos] ++ ".)\n".toList ++ result ++ [Char.ofNat 0, '\n']

/-- The `if !keepBlankLines` block of `generateFile`: the rendered text, passed
through the normalizer unless blank lines are kept. The normalizer never runs
out of fuel (`removeBlankLines_total`), so the `none` branch is never taken. -/
def normalized (keepBlankLines : Bool) (result : Str) : Str :=
  if !keepBlankLines then
    match removeBlankLines result with
    | some buf => buf
    | none => result
  else result

/-- Go `generateFile`. -/
def generateFile {W : Type} (sys : Sys W) (st : St W) (templatePath destinationPath : Str)
    (debugTemplates : Bool) (delimLeft delimRight : Str) (keepBlankLines : Bool) :
    St W × Option Str :=
  let rd := sys.readFile st.world templatePath
  match rd.2 with
  | .error err => ({ st with world := rd.1 }, some err)
  | .ok s =>
    let g := generateTemplate sys rd.1 s (sys.base templatePath) delimLeft delimRight
    match g.2 with
    | .error err => ({ st with world := g.1 }, some err)
    | .ok result =>
      let log1 := if debugTemplates then st.log ++ [debugLine result] else st.log
      let wr := sys.writeFile g.1 destinationPath (normalized keepBlankLines result)
      ({ world := wr.1, log := log1 }, wr.2)

/-- The text of `fmt.Errorf` in `generateTemplates`, with its three operands
in place. -/
def generateError (t : templatePaths) (err : Str) : Str :=
  "error while generating ".toList ++ [apos] ++ t.source ++ [apos] ++ " -> ".toList ++
    [apos] ++ t.destination ++ [apos] ++ ". ".toList ++ err

/-- The `if v > 0` block at the head of the loop body of `generateTemplates`:
the pair is announced in the log. -/
def announce {W : Type} (v : Int) (st : St W) (t : templatePaths) : St W :=
  if v > 0 then
    { st with log := st.log ++
        ["generating ".toList ++ t.source ++ " -> ".toList ++ t.destination] }
  else st

/-- Go `generateTemplates`; `v` is the global verbosity. -/
def generateTemplates {W : Type} (sys : Sys W) (v : Int) (st : St W) (ts : templatesPaths)
    (debug : Bool) (delimLeft delimRight : Str) (keepBlankLines : Bool) : St W × Option Str :=
  match ts with
  | [] => (st, none)
  | t :: rest =>
    let r := generateFile sys (announce v st t) t.source t.destination debug
      delimLeft delimRight keepBlankLines
    match r.2 with
    | some err => (r.1, some (generateError t err))
    | none => generateTemplates sys v r.1 rest debug delimLeft delimRight keepBlankLines

/-- The command line after `flag.Parse()`. -/
structure Config where
  tmpls : templatesPaths
  debugTemplates : Bool
  doExec : Bool
  printVersion : Bool
  envFileList : List Str
  delimLeft : Str
  delimRight : Str
  keepBlankLines : Bool
  v : Int
  /-- Go `flag.Args()`. -/
  args : List Str
  /-- The global `buildVersion`. -/
  buildVersion : Str

/-- How a run of `main` ends. -/
inductive Outcome where
  /-- Go `log.Fatal`: the message is logged and the process exits with status 1. -/
  | fatal (msg : Str)
  /-- Go `os.Exit(code)`. -/
  | exit (code : Nat)
  /-- The process image was replaced by the command. -/
  | replaced (path : Str) (args : List Str)
  /-- Go `main` returned. -/
  | returned
  deriving DecidableEq, Repr

/-- The `if v > 0` block of `main` before the templates are generated. -/
def banner {W : Type} (v : Int) (st : St W) : St W :=
  if v > 0 then { st with log := st.log ++ ["Generating templates".toList] } else st

/-- Go `main`, from the point where the flags have been parsed. -/
def main {W : Type} (sys : Sys W) (cfg : Config) (st : St W) : St W × Outcome :=
  let loaded : St W × Option Str :=
    if cfg.envFileList.length > 0 then
      let r := sys.load st.world cfg.envFileList
      ({ st with world := r.1 }, r.2)
    else (st, none)
  match loaded.2 with
  | some err => ({ loaded.1 with log := loaded.1.log ++ [err] }, .fatal err)
  | none =>
    let st1 := loaded.1
    if cfg.printVersion then
      ({ st1 with log := st1.log ++ ["Version: ".toList ++ cfg.buildVersion] }, .exit 0)
    else
      let g := generateTemplates sys cfg.v (banner cfg.v st1) cfg.tmpls cfg.debugTemplates
        cfg.delimLeft cfg.delimRight cfg.keepBlankLines
      match g.2 with
      | some err => ({ g.1 with log := g.1.log ++ [err] }, .fatal err)
      | none =>
        let st3 := g.1
        if cfg.doExec then
          match cfg.args with
          | [] =>
            let msg := "Missing command to execute!".toList
            ({ st3 with log := st3.log ++ [msg] }, .fatal msg)
          | cmd :: _ =>
            let lp := sys.lookPath st3.world cmd
            let st4 : St W := { st3 with world := lp.1 }
            match lp.2 with
            | .error err => ({ st4 with log := st4.log ++ [err] }, .fatal err)
            | .ok cmdPath =>
              match sys.exec st4.world cmdPath cfg.args (sys.environ st4.world) with
              | some err =>
                let msg := "Unable to exec ".toList ++ [apos] ++ cmdPath ++ [apos] ++
                  "! ".toList ++ err
                ({ st4 with log := st4.log ++ [msg] }, .fatal msg)
              | none => (st4, .replaced cmdPath cfg.args)
        else (st3, .returned)

/-! ## Vocabulary for stating properties of runs -/

/-- The relation `Succeeds sys v debug dl dr keep st ts st1`: starting in state
`st`, `generateFile` was run on every pair of `ts`, one after the other in the
order of the list, each run announced as in `generateTemplates`, each returned
no error, and the last one left the state `st1`. -/
inductive Succeeds {W : Type} (sys : Sys W) (v : Int) (debug : Bool) (dl dr : Str)
    (keep : Bool) : St W → List templatePaths → St W → Prop where
  | nil (st : St W) : Succeeds sys v debug dl dr keep st [] st
  | cons (st st1 st2 : St W) (t : templatePaths) (rest : List templatePaths)
      (hfile : generateFile sys (announce v st t) t.source t.destination debug dl dr keep
        = (st1, none))
      (hrest : Succeeds sys v debug dl dr keep st1 rest st2) :
      Succeeds sys v debug dl dr keep st (t :: rest) st2

/-- A call of an external operation, with its arguments. -/
inductive Event where
  | read (path : Str)
  | render (name left right source : Str)
  | write (path data : Str)
  | load (files : List Str)
  | lookPath (cmd : Str)
  deriving DecidableEq, Repr

/-- An outside world that is the record of the calls made so far. Every file
reads as "hello\n" except "missing.tmpl", which cannot be read; the template
engine returns the source unchanged; writing and loading succeed; no command
is found. -/
def demoSys : Sys (List Event) where
  environ := fun _ => []
  readFile := fun w p =>
    (w ++ [Event.read p],
      if p = "missing.tmpl".toList then .error "no such file".toList
      else .ok "hello\n".toList)
  writeFile := fun w p d => (w ++ [Event.write p d], none)
  base := fun p => p
  render := fun w name left right source _ =>
    (w ++ [Event.render name left right source], .ok source)
  load := fun w fs => (w ++ [Event.load fs], none)
  lookPath := fun w c => (w ++ [Event.lookPath c], .error "not found".toList)
  exec := fun _ _ _ _ => none

/-- A command line that overrides the left delimiter only, with one template
pair and every other flag at its default. -/
def demoConfig : Config where
  tmpls := [⟨"in.tmpl".toList, "out.conf".toList⟩]
  debugTemplates := false
  doExec := false
  printVersion := false
  envFileList := []
  delimLeft := "<<".toList
  delimRight := []
  keepBlankLines := false
  v := 0
  args := []
  buildVersion := "Build version was not specified.".toList

/-- The state at program start: nothing called, nothing logged. -/
def demoStart : St (List Event) := ⟨[], []⟩

/-- Three pairs, the second with a source that cannot be read. -/
def demoPairs : templatesPaths :=
  [⟨"in1.tmpl".toList, "out1".toList⟩, ⟨"missing.tmpl".toList, "out2".toList⟩,
    ⟨"in3.tmpl".toList, "out3".toList⟩]

/-! ## Lemmas: reading lines -/

theorem isLine_iff (l : Str) : IsLine l ↔ ∃ body, l = body ++ ['\n'] ∧ '\n' ∉ body := by
  constructor
  · rintro ⟨h1, h2⟩
    exact ⟨l.dropLast, (List.dropLast_append_getLast? _ h1).symm, h2⟩
  · rintro ⟨body, rfl, hb⟩
    constructor
    · simp
    · simpa using hb

theorem isLine_ne_nil {l : Str} (h : IsLine l) : l ≠ [] := by
  rintro rfl
  simp [IsLine] at h

theorem readString_body (body rest : Str) (hb : '\n' ∉ body) :
    readString '\n' (body ++ '\n' :: rest) = (body ++ ['\n'], rest, false) := by
  induction body with
  | nil => simp [readString]
  | cons c cs ih =>
    have hc : c ≠ '\n' := fun h => hb (by simp [h])
    have hcs : '\n' ∉ cs := fun h => hb (by simp [h])
    simp [readString, hc, ih hcs]

theorem readString_line (l rest : Str) (hl : IsLine l) :
    readString '\n' (l ++ rest) = (l, rest, false) := by
  obtain ⟨body, rfl, hb⟩ := (isLine_iff l).1 hl
  simpa using readString_body body rest hb

theorem readString_eof (t : Str) (ht : '\n' ∉ t) :
    (readString '\n' t).2.2 = true := by
  induction t with
  | nil => simp [readString]
  | cons c cs ih =>
    have hc : c ≠ '\n' := fun h => ht (by simp [h])
    have hcs : '\n' ∉ cs := fun h => ht (by simp [h])
    simp [readString, hc, ih hcs]

/-- Every text is a sequence of newline-terminated lines followed by a
remainder without newline. -/
theorem exists_lines (s : Str) :
    ∃ (ls : List Str) (tail : Str), s = ls.flatten ++ tail ∧ (∀ l ∈ ls, IsLine l) ∧ '\n' ∉ tail := by
  induction s with
  | nil => exact ⟨[], [], by simp, by simp, by simp⟩
  | cons c cs ih =>
    obtain ⟨ls, tail, hs, hl, ht⟩ := ih
    by_cases hc : c = '\n'
    · subst hc
      refine ⟨['\n'] :: ls, tail, by simp [hs], ?_, ht⟩
      intro l hmem
      rcases List.mem_cons.1 hmem with rfl | h
      · exact (isLine_iff _).2 ⟨[], by simp, by simp⟩
      · exact hl l h
    · cases ls with
      | nil =>
        refine ⟨[], c :: tail, by simp [hs], by simp, ?_⟩
        intro h
        rcases List.mem_cons.1 h with h | h
        · exact hc h.symm
        · exact ht h
      | cons l ls =>
        refine ⟨(c :: l) :: ls, tail, by simp [hs], ?_, ht⟩
        intro l' hmem
        rcases List.mem_cons.1 hmem with rfl | h
        · obtain ⟨body, rfl, hb⟩ := (isLine_iff l).1 (hl l (by simp))
          refine (isLine_iff _).2 ⟨c :: body, by simp, ?_⟩
          intro h
          rcases List.mem_cons.1 h with h | h
          · exact hc h.symm
          · exact hb h
        · exact hl l' (List.mem_cons_of_mem _ h)

/-! ## Lemmas: the loop -/

theorem removeBlankLinesLoop_lines (ls : List Str) (tail : Str)
    (hl : ∀ l ∈ ls, IsLine l) (ht : '\n' ∉ tail) :
    ∀ (fuel : Nat) (prev : Bool) (out : Str), ls.length < fuel →
      removeBlankLinesLoop fuel prev (ls.flatten ++ tail) out =
        some (out ++ (squeezeLines prev ls).flatten) := by
  induction ls with
  | nil =>
    intro fuel prev out hf
    cases fuel with
    | zero => omega
    | succ fuel =>
      simp [removeBlankLinesLoop, squeezeLines, readString_eof tail ht]
  | cons l ls ih =>
    intro fuel prev out hf
    cases fuel with
    | zero => omega
    | succ fuel =>
      have hline : IsLine l := hl l (by simp)
      have hrest : ∀ l' ∈ ls, IsLine l' := fun l' h => hl l' (List.mem_cons_of_mem _ h)
      have hf' : ls.length < fuel := by simpa using hf
      have hr : readString '\n' ((l :: ls).flatten ++ tail) = (l, ls.flatten ++ tail, false) := by
        simpa using readString_line l (ls.flatten ++ tail) hline
      unfold removeBlankLinesLoop
      simp only [hr]
      cases hb : isBlank l <;> cases prev <;>
        simp [squeezeLines, hb, ih hrest fuel _ _ hf']

theorem length_le_flatten (ls : List Str) (hl : ∀ l ∈ ls, IsLine l) :
    ls.length ≤ ls.flatten.length := by
  induction ls with
  | nil => simp
  | cons l ls ih =>
    have h1 : l ≠ [] := isLine_ne_nil (hl l (by simp))
    have h2 : 0 < l.length := List.length_pos.2 h1
    have h3 := ih (fun l' h => hl l' (List.mem_cons_of_mem _ h))
    rw [List.flatten_cons, List.length_append, List.length_cons]
    omega

/-- The normalizer on a text made of the lines `ls` and an unterminated
remainder `tail`: the loop ends within its fuel and the result is described by
`squeezeLines`. -/
theorem removeBlankLines_eq (ls : List Str) (tail : Str)
    (hl : ∀ l ∈ ls, IsLine l) (ht : '\n' ∉ tail) :
    removeBlankLines (ls.flatten ++ tail) = some (squeezeLines true ls).flatten := by
  unfold removeBlankLines
  rw [removeBlankLinesLoop_lines ls tail hl ht]
  · simp
  · have := length_le_flatten ls hl
    rw [List.length_append]
    omega

/-- The loop of the normalizer ends within its fuel on every input. -/
theorem removeBlankLines_total (s : Str) : ∃ o : Str, removeBlankLines s = some o := by
  obtain ⟨ls, tail, rfl, hl, ht⟩ := exists_lines s
  exact ⟨_, removeBlankLines_eq ls tail hl ht⟩

/-! ## Lemmas: the line-level description -/

theorem noBlankPair_cons (l : Str) (ls : List Str) :
    NoBlankPair (l :: ls) ↔ (isBlank l = true → FirstNotBlank ls) ∧ NoBlankPair ls := by
  unfold NoBlankPair FirstNotBlank
  cases ls with
  | nil => simp
  | cons b rest =>
    simp only [List.tail_cons, List.zip_cons_cons, List.forall_mem_cons, List.head?_cons,
      Option.some.injEq, forall_eq']
    cases isBlank l <;> cases isBlank b <;> simp

theorem firstNotBlank_cons (l : Str) (ls : List Str) :
    FirstNotBlank (l :: ls) ↔ isBlank l = false := by
  unfold FirstNotBlank
  constructor
  · intro h
    exact h l rfl
  · intro h y hy
    simp at hy
    rw [← hy]
    exact h

theorem squeezeLines_mem (ls : List Str) :
    ∀ (prev : Bool) (l : Str), l ∈ squeezeLines prev ls → l ∈ ls := by
  induction ls with
  | nil => intro prev l h; simp [squeezeLines] at h
  | cons a ls ih =>
    intro prev l h
    unfold squeezeLines at h
    split at h
    · split at h
      · exact List.mem_cons_of_mem _ (ih _ _ h)
      · rcases List.mem_cons.1 h with rfl | h
        · simp
        · exact List.mem_cons_of_mem _ (ih _ _ h)
    · rcases List.mem_cons.1 h with rfl | h
      · simp
      · exact List.mem_cons_of_mem _ (ih _ _ h)

theorem squeezeLines_normal (ls : List Str) :
    ∀ prev : Bool, NormalFrom prev (squeezeLines prev ls) := by
  induction ls with
  | nil =>
    intro prev
    exact ⟨fun _ l h => by simp [squeezeLines] at h, by simp [squeezeLines, NoBlankPair]⟩
  | cons a ls ih =>
    intro prev
    cases hb : isBlank a
    · have h := ih false
      simp only [squeezeLines, hb]
      refine ⟨fun _ => (firstNotBlank_cons _ _).2 hb, (noBlankPair_cons _ _).2 ⟨?_, h.2⟩⟩
      intro h'
      rw [hb] at h'
      exact Bool.noConfusion h'
    · have h := ih true
      cases prev
      · simp only [squeezeLines, hb]
        refine ⟨fun h' => Bool.noConfusion h', (noBlankPair_cons _ _).2 ⟨fun _ => h.1 rfl, h.2⟩⟩
      · simpa [squeezeLines, hb] using h

theorem squeezeLines_of_normal (ls : List Str) :
    ∀ prev : Bool, NormalFrom prev ls → squeezeLines prev ls = ls := by
  induction ls with
  | nil => intro prev _; rfl
  | cons a ls ih =>
    intro prev h
    have hp := (noBlankPair_cons a ls).1 h.2
    cases hb : isBlank a
    · simp only [squeezeLines, hb]
      rw [ih false ⟨fun h' => Bool.noConfusion h', hp.2⟩]
      rfl
    · cases prev
      · simp only [squeezeLines, hb]
        rw [ih true ⟨fun _ => hp.1 hb, hp.2⟩]
        rfl
      · have := (firstNotBlank_cons a ls).1 (h.1 rfl)
        rw [hb] at this
        exact Bool.noConfusion this

theorem squeezeLines_append (a b : List Str) :
    ∀ prev : Bool, squeezeLines prev (a ++ b) =
      squeezeLines prev a ++ squeezeLines (stateAfter prev a) b := by
  induction a with
  | nil => intro prev; simp [squeezeLines, stateAfter]
  | cons l a ih =>
    intro prev
    have hs : ∀ p : Bool, stateAfter p (l :: a) = stateAfter (isBlank l) a := by
      intro p
      cases a with
      | nil => simp [stateAfter]
      | cons l2 a2 =>
        cases h : (l2 :: a2).getLast? with
        | none => simp at h
        | some x => simp [stateAfter, List.getLast?_cons_cons, h]
    rw [hs]
    cases hb : isBlank l
    · simp [squeezeLines, hb, ih]
    · cases prev <;> simp [squeezeLines, hb, ih]

theorem squeezeLines_blank_run (bs rest : List Str) (hbs : ∀ l ∈ bs, isBlank l = true) :
    squeezeLines true (bs ++ rest) = squeezeLines true rest := by
  induction bs with
  | nil => rfl
  | cons b bs ih =>
    have hb : isBlank b = true := hbs b (by simp)
    simp [squeezeLines, hb, ih (fun l h => hbs l (List.mem_cons_of_mem _ h))]

theorem textLines_body (body rest : Str) (hb : '\n' ∉ body) :
    textLines (body ++ '\n' :: rest) = (body ++ ['\n']) :: textLines rest := by
  induction body with
  | nil => simp [textLines]
  | cons c cs ih =>
    have hc : c ≠ '\n' := fun h => hb (by simp [h])
    have hcs : '\n' ∉ cs := fun h => hb (by simp [h])
    simp [textLines, hc, ih hcs]

theorem textLines_flatten (ls : List Str) (hl : ∀ l ∈ ls, IsLine l) :
    textLines ls.flatten = ls := by
  induction ls with
  | nil => rfl
  | cons l ls ih =>
    obtain ⟨body, rfl, hb⟩ := (isLine_iff l).1 (hl l (by simp))
    have := textLines_body body ls.flatten hb
    simp only [List.flatten_cons, List.append_assoc, List.singleton_append]
    rw [this, ih (fun l' h => hl l' (List.mem_cons_of_mem _ h))]

theorem squeezeLines_filter (ls : List Str) :
    ∀ prev : Bool, (squeezeLines prev ls).filter (fun l => !isBlank l)
      = ls.filter (fun l => !isBlank l) := by
  induction ls with
  | nil => intro prev; rfl
  | cons a ls ih =>
    intro prev
    cases hb : isBlank a
    · simp [squeezeLines, hb, ih]
    · cases prev <;> simp [squeezeLines, hb, ih]

/-- The non-blank newline-terminated lines of the input are the non-blank
lines of the output, in the same order; only an unterminated last line `tail`
is not carried over. -/
theorem removeBlankLines_keeps_terminated (ls : List Str) (tail : Str)
    (hl : ∀ l ∈ ls, IsLine l) (ht : '\n' ∉ tail) :
    ∃ o : Str, removeBlankLines (ls.flatten ++ tail) = some o ∧
      (textLines o).filter (fun l => !isBlank l) = ls.filter (fun l => !isBlank l) := by
  refine ⟨_, removeBlankLines_eq ls tail hl ht, ?_⟩
  rw [textLines_flatten _ (fun l hmem => hl l (squeezeLines_mem ls true l hmem))]
  exact squeezeLines_filter ls true

/-! ## Lemmas: package `strings` -/

theorem stringsSplit_ne_nil (s : Str) (sep : Char) : stringsSplit s sep ≠ [] := by
  induction s with
  | nil => simp [stringsSplit]
  | cons c cs ih =>
    unfold stringsSplit
    split
    · simp
    · split <;> simp

theorem stringsSplit_no_sep (s : Str) (sep : Char) (h : sep ∉ s) :
    stringsSplit s sep = [s] := by
  induction s with
  | nil => simp [stringsSplit]
  | cons c cs ih =>
    have hc : c ≠ sep := fun e => h (by simp [e])
    have hcs : sep ∉ cs := fun e => h (by simp [e])
    simp [stringsSplit, hc, ih hcs]

theorem stringsSplit_at_sep (a b : Str) (sep : Char) (h : sep ∉ a) :
    stringsSplit (a ++ sep :: b) sep = a :: stringsSplit b sep := by
  induction a with
  | nil => simp [stringsSplit]
  | cons c cs ih =>
    have hc : c ≠ sep := fun e => h (by simp [e])
    have hcs : sep ∉ cs := fun e => h (by simp [e])
    simp [stringsSplit, hc, ih hcs]

theorem stringsSplit_length (s : Str) (sep : Char) :
    (stringsSplit s sep).length = s.count sep + 1 := by
  induction s with
  | nil => simp [stringsSplit]
  | cons c cs ih =>
    by_cases hc : c = sep
    · subst hc
      simp [stringsSplit, ih]
    · have hne := stringsSplit_ne_nil cs sep
      cases hs : stringsSplit cs sep with
      | nil => exact absurd hs hne
      | cons p ps =>
        rw [hs] at ih
        simp [stringsSplit, hc, hs, List.count_cons]
        simpa using ih

theorem stringsJoin_cons_cons (c : Char) (p : Str) (ps : List Str) (sep : Str) :
    stringsJoin ((c :: p) :: ps) sep = c :: stringsJoin (p :: ps) sep := by
  cases ps <;> simp [stringsJoin]

/-- Joining the pieces of a split with the separator gives the text back. -/
theorem stringsJoin_stringsSplit (s : Str) (sep : Char) :
    stringsJoin (stringsSplit s sep) [sep] = s := by
  induction s with
  | nil => simp [stringsSplit, stringsJoin]
  | cons c cs ih =>
    have hne := stringsSplit_ne_nil cs sep
    cases hs : stringsSplit cs sep with
    | nil => exact absurd hs hne
    | cons p ps =>
      rw [hs] at ih
      by_cases hc : c = sep
      · subst hc
        simp [stringsSplit, hs, stringsJoin, ih]
      · simp [stringsSplit, hc, hs, stringsJoin_cons_cons, ih]

theorem exists_split_of_count_one (s : Str) (sep : Char) (h : s.count sep = 1) :
    ∃ a b : Str, s = a ++ sep :: b ∧ sep ∉ a ∧ sep ∉ b := by
  induction s with
  | nil => simp at h
  | cons c cs ih =>
    by_cases hc : c = sep
    · subst hc
      refine ⟨[], cs, rfl, by simp, ?_⟩
      have : cs.count c = 0 := by simpa using h
      exact List.count_eq_zero.1 this
    · have hcount : cs.count sep = 1 := by
        rw [List.count_cons] at h
        simpa [hc] using h
      obtain ⟨a, b, rfl, ha, hb⟩ := ih hcount
      refine ⟨c :: a, b, rfl, ?_, hb⟩
      intro hmem
      rcases List.mem_cons.1 hmem with e | e
      · exact hc e.symm
      · exact ha e

/-! ## Lemmas: the environment snapshot -/

theorem envStep_entry (m : EnvMap) (n v : Str) (hn : '=' ∉ n) :
    m.set ((stringsSplit (n ++ '=' :: v) '=').headD [])
        (stringsJoin (stringsSplit (n ++ '=' :: v) '=').tail ['=']) = m.set n v := by
  rw [stringsSplit_at_sep n v '=' hn]
  simp [stringsJoin_stringsSplit]

theorem ctxEnv_fold (entries : List (Str × Str)) (hn : ∀ e ∈ entries, '=' ∉ e.1) :
    ∀ m : EnvMap,
      (entries.map (fun e => e.1 ++ '=' :: e.2)).foldl
        (fun (env : EnvMap) (item : Str) =>
          env.set ((stringsSplit item '=').headD [])
            (stringsJoin (stringsSplit item '=').tail ['=']))
        m
      = entries.foldl (fun (env : EnvMap) e => env.set e.1 e.2) m := by
  induction entries with
  | nil => intro m; rfl
  | cons e rest ih =>
    intro m
    simp only [List.map_cons, List.foldl_cons]
    rw [envStep_entry m e.1 e.2 (hn e (by simp))]
    exact ih (fun e' h => hn e' (List.mem_cons_of_mem _ h)) _

theorem fold_set_not_mem (entries : List (Str × Str)) (k : Str)
    (hk : k ∉ entries.map Prod.fst) :
    ∀ m : EnvMap, (entries.foldl (fun (env : EnvMap) e => env.set e.1 e.2) m) k = m k := by
  induction entries with
  | nil => intro m; rfl
  | cons e rest ih =>
    intro m
    simp only [List.map_cons, List.mem_cons, not_or] at hk
    simp only [List.foldl_cons]
    rw [ih hk.2]
    simp [EnvMap.set, hk.1]

theorem fold_set_mem (entries : List (Str × Str))
    (hd : (entries.map Prod.fst).Nodup) :
    ∀ (m : EnvMap) (e : Str × Str), e ∈ entries →
      (entries.foldl (fun (env : EnvMap) e => env.set e.1 e.2) m) e.1 = some e.2 := by
  induction entries with
  | nil => intro m e h; simp at h
  | cons a rest ih =>
    intro m e h
    simp only [List.map_cons, List.nodup_cons] at hd
    simp only [List.foldl_cons]
    rcases List.mem_cons.1 h with rfl | h
    · rw [fold_set_not_mem rest e.1 hd.1]
      simp [EnvMap.set]
    · exact ih hd.2 _ e h

theorem fold_set_last (pre post : List (Str × Str)) (n v : Str)
    (hpost : n ∉ post.map Prod.fst) (m : EnvMap) :
    ((pre ++ (n, v) :: post).foldl (fun (env : EnvMap) e => env.set e.1 e.2) m) n = some v := by
  rw [List.foldl_append, List.foldl_cons, fold_set_not_mem post n hpost]
  simp [EnvMap.set]

/-- What `TrimSpace` removes is white space at both ends, and what it leaves
neither starts nor ends with white space. -/
theorem TrimSpace_spec (s : Str) :
    ∃ l r : Str, s = l ++ TrimSpace s ++ r ∧
      (∀ c ∈ l, isSpace c = true) ∧ (∀ c ∈ r, isSpace c = true) ∧
      (∀ c, (TrimSpace s).head? = some c → isSpace c = false) ∧
      (∀ c, (TrimSpace s).getLast? = some c → isSpace c = false) := by
  have h1 := List.takeWhile_append_dropWhile isSpace s
  have h2 := List.takeWhile_append_dropWhile isSpace (s.dropWhile isSpace).reverse
  have h3 : s.dropWhile isSpace = TrimSpace s ++
      ((s.dropWhile isSpace).reverse.takeWhile isSpace).reverse := by
    have := congrArg List.reverse h2
    rw [List.reverse_append, List.reverse_reverse] at this
    exact this.symm
  refine ⟨s.takeWhile isSpace, ((s.dropWhile isSpace).reverse.takeWhile isSpace).reverse,
    ?_, ?_, ?_, ?_, ?_⟩
  · rw [List.append_assoc, ← h3, h1]
  · intro c hc
    exact List.mem_takeWhile_imp hc
  · intro c hc
    exact List.mem_takeWhile_imp (List.mem_reverse.1 hc)
  · intro c hc
    have hne : TrimSpace s ≠ [] := by
      intro e; rw [e] at hc; simp at hc
    have h4 := List.head?_dropWhile_not isSpace s
    rw [h3, List.head?_append_of_ne_nil _ hne, hc] at h4
    exact h4
  · intro c hc
    have h4 := List.head?_dropWhile_not isSpace (s.dropWhile isSpace).reverse
    unfold TrimSpace at hc
    rw [List.getLast?_reverse] at hc
    rw [hc] at h4
    exact h4

/-! ## Lemmas: the batch generator -/

theorem generateError_source (t : templatePaths) (err : Str) :
    t.source <:+: generateError t err := by
  refine ⟨"error while generating ".toList ++ [apos],
    [apos] ++ " -> ".toList ++ [apos] ++ t.destination ++ [apos] ++ ". ".toList ++ err, ?_⟩
  simp [generateError, List.append_assoc]

theorem generateError_destination (t : templatePaths) (err : Str) :
    t.destination <:+: generateError t err := by
  refine ⟨"error while generating ".toList ++ [apos] ++ t.source ++ [apos] ++ " -> ".toList
    ++ [apos], [apos] ++ ". ".toList ++ err, ?_⟩
  simp [generateError, List.append_assoc]

/-- When `generateFile` succeeds on every pair, `generateTemplates` returns the
state left by the last of these runs and no error. -/
theorem generateTemplates_of_succeeds {W : Type} (sys : Sys W) (v : Int)
    (debug : Bool) (dl dr : Str) (keep : Bool) (st st1 : St W) (ts : templatesPaths)
    (h : Succeeds sys v debug dl dr keep st ts st1) :
    generateTemplates sys v st ts debug dl dr keep = (st1, none) := by
  induction h with
  | nil st => rfl
  | cons st st1 st2 t rest hfile _ ih =>
    unfold generateTemplates
    simp only [hfile]
    exact ih

/-- When `generateFile` succeeds on the pairs of `done` and fails on the next
pair `t`, `generateTemplates` returns the state left by the failing run and the
error made from `t` and the error of that run, whatever pairs come later. -/
theorem generateTemplates_of_fails {W : Type} (sys : Sys W) (v : Int)
    (debug : Bool) (dl dr : Str) (keep : Bool) (st mid st1 : St W)
    (done later : List templatePaths) (t : templatePaths) (err : Str)
    (h : Succeeds sys v debug dl dr keep st done mid)
    (hfile : generateFile sys (announce v mid t) t.source t.destination debug dl dr keep
      = (st1, some err)) :
    generateTemplates sys v st (done ++ t :: later) debug dl dr keep
      = (st1, some (generateError t err)) := by
  induction h with
  | nil st =>
    simp only [List.nil_append]
    unfold generateTemplates
    simp only [hfile]
  | cons st st1 st2 t2 rest hfile2 _ ih =>
    simp only [List.cons_append]
    unfold generateTemplates
    simp only [hfile2]
    exact ih hfile

/-- Every run of `generateTemplates` is of one of the two kinds. -/
theorem generateTemplates_cases {W : Type} (sys : Sys W) (v : Int)
    (debug : Bool) (dl dr : Str) (keep : Bool) (ts : templatesPaths) :
    ∀ st : St W,
      (∃ st1 : St W, Succeeds sys v debug dl dr keep st ts st1) ∨
      (∃ (done : List templatePaths) (t : templatePaths) (later : List templatePaths)
          (mid st1 : St W) (err : Str),
        ts = done ++ t :: later ∧
        Succeeds sys v debug dl dr keep st done mid ∧
        generateFile sys (announce v mid t) t.source t.destination debug dl dr keep
          = (st1, some err)) := by
  induction ts with
  | nil => intro st; exact Or.inl ⟨st, Succeeds.nil st⟩
  | cons t rest ih =>
    intro st
    rcases hr : generateFile sys (announce v st t) t.source t.destination debug dl dr keep
      with ⟨s1, _ | err⟩
    · rcases ih s1 with ⟨s2, h2⟩ | ⟨done, t2, later, mid, s2, err, hts, hs, hf⟩
      · exact Or.inl ⟨s2, Succeeds.cons st s1 s2 t rest hr h2⟩
      · exact Or.inr ⟨t :: done, t2, later, mid, s2, err, by simp [hts],
          Succeeds.cons st s1 mid t done hr hs, hf⟩
    · exact Or.inr ⟨[], t, rest, st, s1, err, rfl, Succeeds.nil st, hr⟩

/-- A run on three pairs whose second source cannot be read, in the world that
records the calls: the first pair is read, rendered and written, the second is
read, and nothing is called for the third. -/
theorem generateTemplates_demo :
    generateTemplates demoSys 0 demoStart demoPairs false [] [] false =
      (⟨[Event.read "in1.tmpl".toList,
          Event.render "in1.tmpl".toList [] [] "hello\n".toList,
          Event.write "out1".toList "hello\n".toList,
          Event.read "missing.tmpl".toList], []⟩,
        some (generateError ⟨"missing.tmpl".toList, "out2".toList⟩ "no such file".toList)) := by
  decide

/-! ## Output Normalizer: the claims -/

/-- C1 (as stated, refuted): on the input "\n\nbar\n" the normalizer returns
"bar\n"; the output is not a blank line followed by the line "bar". -/
theorem removeBlankLines_leading_run_counterexample :
    removeBlankLines "\n\nbar\n".toList = some "bar\n".toList ∧
    ¬ ∃ b : Str, IsLine b ∧ isBlank b = true ∧
        removeBlankLines "\n\nbar\n".toList = some (b ++ "bar\n".toList) := by
  refine ⟨by decide, ?_⟩
  rintro ⟨b, hb, -, h⟩
  have h0 : removeBlankLines "\n\nbar\n".toList = some "bar\n".toList := by decide
  rw [h0] at h
  have h1 := congrArg List.length (Option.some.inj h)
  have h2 : b = [] := by
    apply List.eq_nil_of_length_eq_zero
    rw [List.length_append] at h1
    omega
  exact isLine_ne_nil hb h2

/-- C1 (amended): on an input made of newline-terminated lines, a run of blank
lines that follows a non-blank line `x` is replaced by its first line `b`
alone, whether a non-blank line `y` follows the run or the input ends with it,
and a run of blank lines at the start of the input is removed entirely. -/
theorem removeBlankLines_collapses_runs
    (pre post bs : List Str) (x y b : Str)
    (hpre : ∀ l ∈ pre, IsLine l) (hpost : ∀ l ∈ post, IsLine l)
    (hbs : ∀ l ∈ bs, IsLine l) (hx : IsLine x) (hy : IsLine y) (hb : IsLine b)
    (nx : isBlank x = false) (ny : isBlank y = false)
    (bb : isBlank b = true) (bbs : ∀ l ∈ bs, isBlank l = true) :
    ∃ A B : Str,
      removeBlankLines (pre ++ [x]).flatten = some (A ++ x) ∧
      removeBlankLines (y :: post).flatten = some (y ++ B) ∧
      removeBlankLines (pre ++ x :: b :: bs ++ y :: post).flatten
        = some (A ++ x ++ b ++ y ++ B) ∧
      removeBlankLines (pre ++ x :: b :: bs).flatten = some (A ++ x ++ b) ∧
      removeBlankLines (b :: bs ++ post).flatten = removeBlankLines post.flatten := by
  have key : ∀ ls : List Str, (∀ l ∈ ls, IsLine l) →
      removeBlankLines ls.flatten = some (squeezeLines true ls).flatten := by
    intro ls h
    simpa using removeBlankLines_eq ls [] h (by simp)
  have hrun : ∀ l ∈ b :: bs, isBlank l = true := by
    intro l h
    rcases List.mem_cons.1 h with rfl | h
    · exact bb
    · exact bbs l h
  have hxs : ∀ p : Bool, stateAfter p (pre ++ [x]) = false := by
    intro p; simp [stateAfter, nx]
  have hsx : squeezeLines true (pre ++ [x]) = squeezeLines true pre ++ [x] := by
    rw [squeezeLines_append]
    cases stateAfter true pre <;> simp [squeezeLines, nx]
  have hsb : ∀ rest : List Str, squeezeLines false (b :: bs ++ rest)
      = b :: squeezeLines true rest := by
    intro rest
    have := squeezeLines_blank_run bs rest bbs
    simp [squeezeLines, bb, this]
  have hsy : ∀ p : Bool, squeezeLines p (y :: post) = y :: squeezeLines false post := by
    intro p; simp [squeezeLines, ny]
  refine ⟨(squeezeLines true pre).flatten, (squeezeLines false post).flatten, ?_, ?_, ?_, ?_, ?_⟩
  · rw [key _ (by
      intro l h
      simp only [List.mem_append, List.mem_cons, List.mem_singleton, List.not_mem_nil,
        or_false] at h
      rcases h with h | rfl
      · exact hpre l h
      · exact hx), hsx]
    simp
  · rw [key _ (by
      intro l h
      rcases List.mem_cons.1 h with rfl | h
      · exact hy
      · exact hpost l h), hsy]
    simp
  · have e : pre ++ x :: b :: bs ++ y :: post = (pre ++ [x]) ++ (b :: bs ++ y :: post) := by
      simp
    rw [key _ (by
      intro l h
      simp only [List.mem_append, List.mem_cons] at h
      rcases h with (h | rfl | rfl | h) | rfl | h
      · exact hpre l h
      · exact hx
      · exact hb
      · exact hbs l h
      · exact hy
      · exact hpost l h), e, squeezeLines_append, hxs, hsx, hsb, hsy]
    simp
  · have e : pre ++ x :: b :: bs = (pre ++ [x]) ++ (b :: bs ++ []) := by simp
    rw [key _ (by
      intro l h
      simp only [List.mem_append, List.mem_cons] at h
      rcases h with h | rfl | rfl | h
      · exact hpre l h
      · exact hx
      · exact hb
      · exact hbs l h), e, squeezeLines_append, hxs, hsx, hsb]
    simp [squeezeLines]
  · rw [key _ (by
      intro l h
      simp only [List.mem_append, List.mem_cons] at h
      rcases h with (rfl | h) | h
      · exact hb
      · exact hbs l h
      · exact hpost l h), key _ hpost]
    rw [squeezeLines_blank_run (b :: bs) post hrun]

/-- Witness of C1 (amended): three blank lines between "foo" and "bar". -/
theorem removeBlankLines_collapses_runs_witness :
    ∃ A B : Str,
      removeBlankLines ([] ++ ["foo\n".toList]).flatten = some (A ++ "foo\n".toList) ∧
      removeBlankLines ("bar\n".toList :: []).flatten = some ("bar\n".toList ++ B) ∧
      removeBlankLines ([] ++ "foo\n".toList :: "\n".toList :: ["\n".toList, "\n".toList]
          ++ "bar\n".toList :: []).flatten
        = some (A ++ "foo\n".toList ++ "\n".toList ++ "bar\n".toList ++ B) ∧
      removeBlankLines ([] ++ "foo\n".toList :: "\n".toList :: ["\n".toList, "\n".toList]).flatten
        = some (A ++ "foo\n".toList ++ "\n".toList) ∧
      removeBlankLines ("\n".toList :: ["\n".toList, "\n".toList] ++ []).flatten
        = removeBlankLines ([] : List Str).flatten :=
  removeBlankLines_collapses_runs [] [] ["\n".toList, "\n".toList]
    "foo\n".toList "bar\n".toList "\n".toList
    (by decide) (by decide) (by decide) (by decide) (by decide) (by decide)
    (by decide) (by decide) (by decide) (by decide)

/-- C2: the normalizer always returns, and applying it to its own output
returns that output again. -/
theorem removeBlankLines_idempotent (s : Str) :
    ∃ o : Str, removeBlankLines s = some o ∧ removeBlankLines o = some o := by
  obtain ⟨ls, tail, rfl, hl, ht⟩ := exists_lines s
  refine ⟨(squeezeLines true ls).flatten, removeBlankLines_eq ls tail hl ht, ?_⟩
  have h := removeBlankLines_eq (squeezeLines true ls) []
    (fun l hmem => hl l (squeezeLines_mem ls true l hmem)) (by simp)
  rw [squeezeLines_of_normal _ true (squeezeLines_normal ls true)] at h
  simpa using h

/-- C3 (as stated, refuted): the input "\nfoo\n" is made of newline-terminated
lines, no two neighbouring lines are blank, and its first line is a lone blank
line; the output is "foo\n", not the input. -/
theorem removeBlankLines_lone_blank_counterexample :
    (∀ l ∈ ["\n".toList, "foo\n".toList], IsLine l) ∧
    NoBlankPair ["\n".toList, "foo\n".toList] ∧
    removeBlankLines ["\n".toList, "foo\n".toList].flatten = some "foo\n".toList ∧
    removeBlankLines ["\n".toList, "foo\n".toList].flatten
      ≠ some ["\n".toList, "foo\n".toList].flatten := by
  refine ⟨by decide, by decide, by decide, by decide⟩

/-- C3 (amended): an input made of newline-terminated lines in which no two
neighbouring lines are blank and whose first line is not blank is returned
unchanged. -/
theorem removeBlankLines_keeps_normal (ls : List Str)
    (hl : ∀ l ∈ ls, IsLine l) (hp : NoBlankPair ls) (hf : FirstNotBlank ls) :
    removeBlankLines ls.flatten = some ls.flatten := by
  have h := removeBlankLines_eq ls [] hl (by simp)
  rw [squeezeLines_of_normal ls true ⟨fun _ => hf, hp⟩] at h
  simpa using h

/-- Witness of C3 (amended): a lone blank line between two non-blank lines. -/
theorem removeBlankLines_keeps_normal_witness :
    removeBlankLines ["foo\n".toList, "\n".toList, "bar\n".toList].flatten
      = some ["foo\n".toList, "\n".toList, "bar\n".toList].flatten :=
  removeBlankLines_keeps_normal ["foo\n".toList, "\n".toList, "bar\n".toList]
    (by decide) (by decide) (by intro l h; simp at h; subst h; decide)

/-- C4 (the code at the failing input): the input "foo\nbar" has the non-blank
lines "foo\n" and "bar"; the output is "foo\n", so the last line, which has no
terminating newline, is lost. -/
theorem removeBlankLines_drops_unterminated_line :
    (textLines "foo\nbar".toList).filter (fun l => !isBlank l)
      = ["foo\n".toList, "bar".toList] ∧
    removeBlankLines "foo\nbar".toList = some "foo\n".toList ∧
    (textLines "foo\n".toList).filter (fun l => !isBlank l) = ["foo\n".toList] := by
  refine ⟨by decide, by decide, by decide⟩

/-- C10: the normalizer always returns, and its output is in normal form: every
line ends with a newline, the first line is not blank, and no two neighbouring
lines are both blank. -/
theorem removeBlankLines_normal_form (s : Str) :
    ∃ o : Str, removeBlankLines s = some o ∧
      (∀ l ∈ textLines o, IsLine l) ∧
      FirstNotBlank (textLines o) ∧
      NoBlankPair (textLines o) := by
  obtain ⟨ls, tail, rfl, hl, ht⟩ := exists_lines s
  have hl2 : ∀ l ∈ squeezeLines true ls, IsLine l :=
    fun l hmem => hl l (squeezeLines_mem ls true l hmem)
  have hn := squeezeLines_normal ls true
  refine ⟨(squeezeLines true ls).flatten, removeBlankLines_eq ls tail hl ht, ?_⟩
  rw [textLines_flatten _ hl2]
  exact ⟨hl2, hn.1 rfl, hn.2⟩

/-! ## Template functions: the claims -/

/-- Checks of the model of `fmt.Errorf` without operands against the documented
outputs of package `fmt`: a missing operand, a doubled percent sign, a lone
percent sign at the end, a period at the end (taken as the verb), width and
precision given as digits and as stars, and an explicit argument index. -/
theorem Errorf_examples :
    Errorf "%d".toList = "%!d(MISSING)".toList ∧
    Errorf "a%%b%".toList = "a%b%!(NOVERB)".toList ∧
    Errorf "100%.".toList = "100%!.(MISSING)".toList ∧
    Errorf "%5.2f!".toList = "%!f(MISSING)!".toList ∧
    Errorf "%*.*d".toList = "%!(BADWIDTH)%!(BADPREC)%!d(MISSING)".toList ∧
    Errorf "%[1]d x".toList = "%!d(BADINDEX) x".toList := by
  refine ⟨by decide, by decide, by decide, by decide, by decide, by decide⟩

/-- Supporting fact for C5: `Required` returns its value unchanged, fails
exactly on `nil` and on the empty string, and the error text is
`fmt.Errorf(warn)`, which is `warn` itself when `warn` has no percent sign. -/
theorem Required_spec (warn : Str) (val : Value) :
    (Required warn val).1 = val ∧
    ((val = Value.nil ∨ val = Value.str []) → (Required warn val).2 = some (Errorf warn)) ∧
    (¬ (val = Value.nil ∨ val = Value.str []) → (Required warn val).2 = none) ∧
    ('%' ∉ warn → Errorf warn = warn) := by
  refine ⟨?_, ?_, ?_, ?_⟩
  · cases val <;> simp [Required]
    split <;> rfl
  · rintro (rfl | rfl) <;> simp [Required]
  · intro h
    cases val <;> simp_all [Required]
  · intro h
    unfold Errorf
    induction warn with
    | nil => rfl
    | cons c cs ih =>
      have hc : c ≠ '%' := fun e => h (by simp [e])
      have hcs : '%' ∉ cs := fun e => h (by simp [e])
      simp [doPrintf, hc, ih hcs]

/-- C5 (the code at the failing input): `Required` with the message
"100% required" and the empty string fails, and the text of the error is
"100%!r(MISSING)equired", not the message. -/
theorem Required_message_formatted :
    (Required "100% required".toList (Value.str [])).2
      = some "100%!r(MISSING)equired".toList ∧
    (Required "100% required".toList (Value.str [])).2 ≠ some "100% required".toList ∧
    (Required "100% required".toList Value.nil).2 = some "100%!r(MISSING)equired".toList := by
  refine ⟨by decide, by decide, by decide⟩

/-! ## Flags and batch generation: the claims -/

/-- C8: `Set` fails exactly when the value does not have exactly one colon; on
failure the list is unchanged; on success the value is `a:b` with no colon in
`a` and `b`, and the pair of the trimmed `a` and the trimmed `b` is appended at
the end of the list. -/
theorem templatesPaths_Set_spec (ts : templatesPaths) (value : Str) :
    ((templatesPaths.Set ts value).2 ≠ none ↔ value.count ':' ≠ 1) ∧
    (value.count ':' ≠ 1 → (templatesPaths.Set ts value).1 = ts) ∧
    (value.count ':' = 1 →
      ∃ a b : Str, value = a ++ ':' :: b ∧ ':' ∉ a ∧ ':' ∉ b ∧
        templatesPaths.Set ts value = (ts ++ [⟨TrimSpace a, TrimSpace b⟩], none)) := by
  have hlen := stringsSplit_length value ':'
  refine ⟨?_, ?_, ?_⟩
  · unfold templatesPaths.Set
    rcases hs : stringsSplit value ':' with _ | ⟨p0, _ | ⟨p1, _ | ⟨p2, ps⟩⟩⟩ <;>
      rw [hs] at hlen <;> simp at hlen ⊢ <;> omega
  · intro h
    unfold templatesPaths.Set
    rcases hs : stringsSplit value ':' with _ | ⟨p0, _ | ⟨p1, _ | ⟨p2, ps⟩⟩⟩
    · rfl
    · rfl
    · rw [hs] at hlen
      simp at hlen
      omega
    · rfl
  · intro h
    obtain ⟨a, b, rfl, ha, hb⟩ := exists_split_of_count_one value ':' h
    refine ⟨a, b, rfl, ha, hb, ?_⟩
    unfold templatesPaths.Set
    rw [stringsSplit_at_sep a b ':' ha, stringsSplit_no_sep b ':' hb]

/-- C9: for an environment whose entries are `NAME=VALUE` with no `=` in the
names, `EnvAll` returns the mapping bound as `Env` by `generateTemplate`,
without error; the mapping sends a name to the whole value of its entry (of its
last entry, should a name occur twice), so with names that occur once every
entry is sent to its whole value; and the mapping has no other key. -/
theorem EnvAll_snapshot (entries : List (Str × Str)) (hn : ∀ e ∈ entries, '=' ∉ e.1) :
    (EnvAll (entries.map (fun e => e.1 ++ '=' :: e.2))).1
      = ctxEnv (entries.map (fun e => e.1 ++ '=' :: e.2)) ∧
    (EnvAll (entries.map (fun e => e.1 ++ '=' :: e.2))).2 = none ∧
    (∀ (pre post : List (Str × Str)) (n v : Str),
      entries = pre ++ (n, v) :: post → n ∉ post.map Prod.fst →
      (EnvAll (entries.map (fun e => e.1 ++ '=' :: e.2))).1 n = some v) ∧
    ((entries.map Prod.fst).Nodup →
      ∀ e ∈ entries, (EnvAll (entries.map (fun e => e.1 ++ '=' :: e.2))).1 e.1 = some e.2) ∧
    (∀ k : Str, k ∉ entries.map Prod.fst →
      (EnvAll (entries.map (fun e => e.1 ++ '=' :: e.2))).1 k = none) := by
  refine ⟨rfl, rfl, ?_, ?_, ?_⟩
  · intro pre post n v he hpost
    unfold EnvAll
    dsimp only
    rw [ctxEnv_fold entries hn, he]
    exact fold_set_last pre post n v hpost _
  · intro hd e he
    unfold EnvAll
    dsimp only
    rw [ctxEnv_fold entries hn]
    exact fold_set_mem entries hd _ e he
  · intro k hk
    unfold EnvAll
    dsimp only
    rw [ctxEnv_fold entries hn, fold_set_not_mem entries k hk]
    rfl

/-- Witness of C9: values with `=` inside and an empty value. -/
theorem EnvAll_snapshot_witness :
    (EnvAll ["FOO=a=b=c".toList, "BAR=".toList]).1 "FOO".toList = some "a=b=c".toList ∧
    (EnvAll ["FOO=a=b=c".toList, "BAR=".toList]).1 "BAR".toList = some [] ∧
    (EnvAll ["FOO=a=b=c".toList, "BAR=".toList]).1
      = ctxEnv ["FOO=a=b=c".toList, "BAR=".toList] :=
  have h := EnvAll_snapshot [("FOO".toList, "a=b=c".toList), ("BAR".toList, [])] (by decide)
  ⟨h.2.2.2.1 (by decide) ("FOO".toList, "a=b=c".toList) (by decide),
   h.2.2.2.1 (by decide) ("BAR".toList, []) (by decide), h.1⟩

/-- C7: `generateTemplates` runs `generateFile` on the pairs in declaration
order. Either `generateFile` succeeded on every pair, one after the other, and
the result is the state left by the last run and no error; or it succeeded on
the pairs of `done` and failed on the next pair `t`, and the result is the
state left by that failing run, so that nothing is done for the later pairs,
with an error whose text contains the source and the destination path of `t`.
No error is returned exactly when `generateFile` succeeds on every pair. -/
theorem generateTemplates_fail_fast {W : Type} (sys : Sys W) (v : Int) (st : St W)
    (ts : templatesPaths) (debug : Bool) (dl dr : Str) (keep : Bool) :
    ((∃ st1 : St W, Succeeds sys v debug dl dr keep st ts st1 ∧
        generateTemplates sys v st ts debug dl dr keep = (st1, none)) ∨
      (∃ (done : List templatePaths) (t : templatePaths) (later : List templatePaths)
          (mid st1 : St W) (err : Str),
        ts = done ++ t :: later ∧
        Succeeds sys v debug dl dr keep st done mid ∧
        generateFile sys (announce v mid t) t.source t.destination debug dl dr keep
          = (st1, some err) ∧
        generateTemplates sys v st ts debug dl dr keep = (st1, some (generateError t err)) ∧
        t.source <:+: generateError t err ∧
        t.destination <:+: generateError t err)) ∧
    ((generateTemplates sys v st ts debug dl dr keep).2 = none ↔
      ∃ st1 : St W, Succeeds sys v debug dl dr keep st ts st1) := by
  have hcases := generateTemplates_cases sys v debug dl dr keep ts st
  constructor
  · rcases hcases with ⟨st1, h⟩ | ⟨done, t, later, mid, st1, err, hts, hs, hf⟩
    · exact Or.inl ⟨st1, h, generateTemplates_of_succeeds sys v debug dl dr keep st st1 ts h⟩
    · refine Or.inr ⟨done, t, later, mid, st1, err, hts, hs, hf, ?_,
        generateError_source t err, generateError_destination t err⟩
      rw [hts]
      exact generateTemplates_of_fails sys v debug dl dr keep st mid st1 done later t err hs hf
  · constructor
    · intro hnone
      rcases hcases with ⟨st1, h⟩ | ⟨done, t, later, mid, st1, err, hts, hs, hf⟩
      · exact ⟨st1, h⟩
      · rw [hts, generateTemplates_of_fails sys v debug dl dr keep st mid st1 done later t err
          hs hf] at hnone
        exact absurd hnone (by simp)
    · rintro ⟨st1, h⟩
      rw [generateTemplates_of_succeeds sys v debug dl dr keep st st1 ts h]

/-! ## Delimiters: the claim -/

/-- C6 (as stated, refuted): with the left delimiter overridden and the right
one left empty the program does not fail at startup. In the world that records
the calls, the template is read, the engine is called with the two delimiter
values as given, the output is written, and `main` returns normally. -/
theorem main_one_delimiter_counterexample :
    (demoConfig.delimLeft ≠ [] ∧ demoConfig.delimRight = []) ∧
    main demoSys demoConfig demoStart =
      (⟨[Event.read "in.tmpl".toList,
          Event.render "in.tmpl".toList "<<".toList [] "hello\n".toList,
          Event.write "out.conf".toList "hello\n".toList], []⟩,
        Outcome.returned) := by
  refine ⟨⟨by decide, by decide⟩, by decide⟩

/-- C6 (amended): the delimiters are not checked at startup. With no env file
and no version request, whatever the two delimiter values are:
`generateFile`, called for a pair with the values of the command line, reads
the source, and when that succeeds calls the template engine with both values
unchanged; a failure of the engine is the failure of `generateFile`, and its
output, normalized, is written to the destination. `main` runs `generateFile`
in this way on the pairs in order: when all runs succeed it goes on, and
returns normally when exec is not requested; when a run fails, it ends with a
fatal error naming that pair. One of the two always happens. -/
theorem main_passes_delimiters {W : Type} (sys : Sys W) (cfg : Config) (st : St W)
    (henv : cfg.envFileList = []) (hver : cfg.printVersion = false) :
    (∀ (s0 : St W) (t : templatePaths) (e : Str),
      (sys.readFile s0.world t.source).2 = .error e →
      generateFile sys s0 t.source t.destination cfg.debugTemplates
          cfg.delimLeft cfg.delimRight cfg.keepBlankLines
        = ({ s0 with world := (sys.readFile s0.world t.source).1 }, some e)) ∧
    (∀ (s0 : St W) (t : templatePaths) (src e : Str),
      (sys.readFile s0.world t.source).2 = .ok src →
      (sys.render (sys.readFile s0.world t.source).1 (sys.base t.source)
          cfg.delimLeft cfg.delimRight src
          (ctxEnv (sys.environ (sys.readFile s0.world t.source).1))).2 = .error e →
      generateFile sys s0 t.source t.destination cfg.debugTemplates
          cfg.delimLeft cfg.delimRight cfg.keepBlankLines
        = ({ s0 with world :=
              (sys.render (sys.readFile s0.world t.source).1 (sys.base t.source)
                cfg.delimLeft cfg.delimRight src
                (ctxEnv (sys.environ (sys.readFile s0.world t.source).1))).1 }, some e)) ∧
    (∀ (s0 : St W) (t : templatePaths) (src out : Str),
      (sys.readFile s0.world t.source).2 = .ok src →
      (sys.render (sys.readFile s0.world t.source).1 (sys.base t.source)
          cfg.delimLeft cfg.delimRight src
          (ctxEnv (sys.environ (sys.readFile s0.world t.source).1))).2 = .ok out →
      generateFile sys s0 t.source t.destination cfg.debugTemplates
          cfg.delimLeft cfg.delimRight cfg.keepBlankLines
        = ({ world :=
              (sys.writeFile
                (sys.render (sys.readFile s0.world t.source).1 (sys.base t.source)
                  cfg.delimLeft cfg.delimRight src
                  (ctxEnv (sys.environ (sys.readFile s0.world t.source).1))).1
                t.destination (normalized cfg.keepBlankLines out)).1,
             log := if cfg.debugTemplates then s0.log ++ [debugLine out] else s0.log },
           (sys.writeFile
              (sys.render (sys.readFile s0.world t.source).1 (sys.base t.source)
                cfg.delimLeft cfg.delimRight src
                (ctxEnv (sys.environ (sys.readFile s0.world t.source).1))).1
              t.destination (normalized cfg.keepBlankLines out)).2)) ∧
    (∀ st1 : St W,
      Succeeds sys cfg.v cfg.debugTemplates cfg.delimLeft cfg.delimRight cfg.keepBlankLines
        (banner cfg.v st) cfg.tmpls st1 →
      cfg.doExec = false → main sys cfg st = (st1, Outcome.returned)) ∧
    (∀ (done : List templatePaths) (t : templatePaths) (later : List templatePaths)
        (mid st1 : St W) (err : Str),
      cfg.tmpls = done ++ t :: later →
      Succeeds sys cfg.v cfg.debugTemplates cfg.delimLeft cfg.delimRight cfg.keepBlankLines
        (banner cfg.v st) done mid →
      generateFile sys (announce cfg.v mid t) t.source t.destination cfg.debugTemplates
          cfg.delimLeft cfg.delimRight cfg.keepBlankLines = (st1, some err) →
      main sys cfg st =
        ({ st1 with log := st1.log ++ [generateError t err] },
          Outcome.fatal (generateError t err))) ∧
    ((∃ st1 : St W,
        Succeeds sys cfg.v cfg.debugTemplates cfg.delimLeft cfg.delimRight cfg.keepBlankLines
          (banner cfg.v st) cfg.tmpls st1) ∨
      (∃ (done : List templatePaths) (t : templatePaths) (later : List templatePaths)
          (mid st1 : St W) (err : Str),
        cfg.tmpls = done ++ t :: later ∧
        Succeeds sys cfg.v cfg.debugTemplates cfg.delimLeft cfg.delimRight cfg.keepBlankLines
          (banner cfg.v st) done mid ∧
        generateFile sys (announce cfg.v mid t) t.source t.destination cfg.debugTemplates
          cfg.delimLeft cfg.delimRight cfg.keepBlankLines = (st1, some err))) := by
  have hmain : main sys cfg st =
      (match (generateTemplates sys cfg.v (banner cfg.v st) cfg.tmpls cfg.debugTemplates
          cfg.delimLeft cfg.delimRight cfg.keepBlankLines).2 with
      | some err =>
        ({ (generateTemplates sys cfg.v (banner cfg.v st) cfg.tmpls cfg.debugTemplates
              cfg.delimLeft cfg.delimRight cfg.keepBlankLines).1 with
            log := (generateTemplates sys cfg.v (banner cfg.v st) cfg.tmpls cfg.debugTemplates
              cfg.delimLeft cfg.delimRight cfg.keepBlankLines).1.log ++ [err] },
          Outcome.fatal err)
      | none =>
        if cfg.doExec then main sys cfg st
        else ((generateTemplates sys cfg.v (banner cfg.v st) cfg.tmpls cfg.debugTemplates
              cfg.delimLeft cfg.delimRight cfg.keepBlankLines).1, Outcome.returned)) := by
    cases hd : cfg.doExec
    · unfold main
      simp only [henv, hver, hd, List.length_nil, gt_iff_lt, lt_self_iff_false, ↓reduceIte,
        Bool.false_eq_true]
    · simp only [↓reduceIte]
      split
      · rename_i err hg
        unfold main
        simp only [henv, hver, List.length_nil, gt_iff_lt, lt_self_iff_false, ↓reduceIte,
          Bool.false_eq_true, hg]
      · rfl
  refine ⟨?_, ?_, ?_, ?_, ?_, ?_⟩
  · intro s0 t e hread
    unfold generateFile
    simp only [hread]
  · intro s0 t src e hread hrender
    unfold generateFile generateTemplate
    simp only [hread, hrender]
  · intro s0 t src out hread hrender
    unfold generateFile generateTemplate
    simp only [hread, hrender]
  · intro st1 hs hd
    rw [hmain, generateTemplates_of_succeeds sys cfg.v cfg.debugTemplates cfg.delimLeft
      cfg.delimRight cfg.keepBlankLines (banner cfg.v st) st1 cfg.tmpls hs]
    simp [hd]
  · intro done t later mid st1 err hts hs hf
    rw [hmain, hts, generateTemplates_of_fails sys cfg.v cfg.debugTemplates cfg.delimLeft
      cfg.delimRight cfg.keepBlankLines (banner cfg.v st) mid st1 done later t err hs hf]
  · exact generateTemplates_cases sys cfg.v cfg.debugTemplates cfg.delimLeft cfg.delimRight
      cfg.keepBlankLines cfg.tmpls (banner cfg.v st)

/-- Witness of C6 (amended): for the command line that overrides the left
delimiter only, the run of `generateFile` on the declared pair succeeds, so
`main` returns normally in the state left by that run. -/
theorem main_passes_delimiters_witness :
    main demoSys demoConfig demoStart =
      (⟨[Event.read "in.tmpl".toList,
          Event.render "in.tmpl".toList "<<".toList [] "hello\n".toList,
          Event.write "out.conf".toList "hello\n".toList], []⟩,
        Outcome.returned) :=
  (main_passes_delimiters demoSys demoConfig demoStart rfl rfl).2.2.2.1 _
    (Succeeds.cons _ _ _ _ _ (by decide) (Succeeds.nil _)) rfl

end Goenvtemplator
